import Mathlib

/-!
Shallow embedding of the core logic of Asphalt Launcher (src/main.py):
settings persistence (`load_config` / `save_config`), the last-played record
(`load_last_played` / `save_last_played`), version-catalog construction
(`get_available_versions`, `AsphaltLauncher._populate_dropdown`) and the
pre-launch parts of `launch_minecraft`.

Filesystem access is modelled by an explicit file state: a file is either
absent (missing or unreadable, so `open`/`json.load` raises and the
`except` clause fires), malformed (present but `json.load` raises), or
holds a parsed JSON value.  Python dicts are insertion-ordered with unique
keys; they are embedded as association lists, with key-uniqueness carried
as a hypothesis where a claim needs it.  Timestamps are only stored and
compared (never added), so they are embedded as integers.
-/

namespace Asphalt

/-- JSON values, the shape `json.load` / `json.dump` work with.
Objects keep field order, as Python dicts do. -/
inductive Json where
  | null : Json
  | bool : Bool → Json
  | num : Int → Json
  | str : String → Json
  | arr : List Json → Json
  | obj : List (String × Json) → Json

/-- State of a JSON file on disk as seen by the loaders in main.py:
`absent` covers a missing or unreadable file, `malformed` a file whose
bytes do not parse as JSON, `content j` a file whose bytes parse to `j`. -/
inductive FileState where
  | absent : FileState
  | malformed : FileState
  | content : Json → FileState

/-- Field lookup in a JSON value: `j[k]` when `j` is an object. -/
def jsonField (k : String) : Json → Option Json
  | .obj kvs => (kvs.find? (fun p => p.1 == k)).map Prod.snd
  | _ => none

/-- The defaults literal of `load_config` (main.py line 69):
`{"username": "", "jvm_args": ["-Xms2G", "-Xmx4G"], "java_path": None}`. -/
def defaultConfig : Json :=
  .obj [("username", .str ""),
        ("jvm_args", .arr [.str "-Xms2G", .str "-Xmx4G"]),
        ("java_path", .null)]

/-- `load_config` (main.py lines 62-69): if the file exists and parses,
return the parsed JSON value as-is; on a missing, unreadable or malformed
file fall through to the defaults literal.  The `except Exception: pass`
means the function never raises. -/
def load_config : FileState → Json
  | .absent => defaultConfig
  | .malformed => defaultConfig
  | .content j => j

/-- Encoding of an optional Java path the way `json.dump` writes it:
Python `None` becomes JSON null, a string stays a string. -/
def javaPathJson : Option String → Json
  | none => .null
  | some s => .str s

/-- `save_config` (main.py lines 72-75): overwrite the config file with the
object `{"username": u, "jvm_args": args, "java_path": p}`. -/
def save_config (username : String) (jvm_args : List String)
    (java_path : Option String) : FileState :=
  .content (.obj [("username", .str username),
                  ("jvm_args", .arr (jvm_args.map .str)),
                  ("java_path", javaPathJson java_path)])

/-- Decode a list of JSON values as strings; fails on a non-string element. -/
def jsonStrList : List Json → Option (List String)
  | [] => some []
  | .str s :: rest => (jsonStrList rest).map (fun l => s :: l)
  | _ => none

/-- Decode a JSON array of strings back to a string list (how the
`jvm_args` field is consumed).  Fails on any non-string element. -/
def jsonToStrList : Json → Option (List String)
  | .arr xs => jsonStrList xs
  | _ => none

/-- Decode the `java_path` field: null is Python `None`, a string is a path. -/
def jsonToJavaPath : Json → Option (Option String)
  | .null => some none
  | .str s => some (some s)
  | _ => none

/-! ### Last-played record -/

/-- A last-played mapping: version identifier to timestamp, in insertion
order, as a Python dict holds it. -/
abbrev LastPlayed := List (String × Int)

/-- State of the last-played file, with well-formed content already decoded
to a mapping. -/
inductive LPFile where
  | absent : LPFile
  | malformed : LPFile
  | content : LastPlayed → LPFile
deriving DecidableEq, Repr

/-- `load_last_played` (main.py lines 81-88): parsed mapping when the file
is present and well-formed, else the empty mapping; never raises. -/
def load_last_played : LPFile → LastPlayed
  | .content m => m
  | _ => []

/-- Python dict assignment `lp[k] = v`: overwrite in place when the key is
present (keeping its position), otherwise append at the end. -/
def dictSet (m : LastPlayed) (k : String) (v : Int) : LastPlayed :=
  if m.any (fun p => p.1 == k) then
    m.map (fun p => if p.1 == k then (k, v) else p)
  else
    m ++ [(k, v)]

/-- Lookup `m[k]` in a last-played mapping. -/
def dictGet (m : LastPlayed) (k : String) : Option Int :=
  (m.find? (fun p => p.1 == k)).map Prod.snd

/-- `save_last_played` (main.py lines 91-95): read the existing mapping
(empty on a missing/unreadable/malformed file), set the entry for
`version_id` to the current timestamp, rewrite the whole file. -/
def save_last_played (file : LPFile) (version_id : String) (now : Int) : LPFile :=
  .content (dictSet (load_last_played file) version_id now)

/-! ### Version catalog resolver -/

/-- One entry of the remote version list returned by
`minecraft_launcher_lib.utils.get_version_list()`: a record with at least
an `id` and a `type` field. -/
structure RemoteVersion where
  id : String
  type : String
deriving DecidableEq, Repr

/-- A catalog entry: (display label, version identifier). -/
abbrev CatalogEntry := String × String

/-- The `type_labels` dict lookup with default
`type_labels.get(v['type'], v['type'])` (main.py line 113 and 122). -/
def typeLabels (t : String) : String :=
  if t = "release" then "Release"
  else if t = "snapshot" then "Snapshot"
  else if t = "old_beta" then "Beta"
  else if t = "old_alpha" then "Alpha"
  else t

/-- The local part of the catalog (main.py line 111):
`[(f"🔧 {v}", v) for v in local]`, in dict (scan) order.  The mapping values
(modification times) are not used, so this takes just the key list. -/
def localItems (localIds : List String) : List CatalogEntry :=
  localIds.map (fun v => ("🔧 " ++ v, v))

/-- The remote loop of `get_available_versions` (main.py lines 117-123):
skip an id already in `seen`, otherwise add it to `seen` and emit
`(f"{type_labels.get(t, t)} - {vid}", vid)`. -/
def remoteItems (seen : List String) : List RemoteVersion → List CatalogEntry
  | [] => []
  | v :: rest =>
    if v.id ∈ seen then remoteItems seen rest
    else (typeLabels v.type ++ " - " ++ v.id, v.id) :: remoteItems (v.id :: seen) rest

/-- Python `max(last_played, key=last_played.get)` over a non-empty dict:
fold keeping the current best, replacing it only on a strictly larger
value, so on ties the earlier key wins. -/
def pyMaxFold (best : String × Int) : LastPlayed → String × Int
  | [] => best
  | q :: rest => pyMaxFold (if best.2 < q.2 then q else best) rest

/-- `max(last_played, key=last_played.get)` returning the chosen (key,
value) pair; `none` on the empty dict (where `if last_played:` is false
and the code never calls `max`). -/
def pyMaxPair : LastPlayed → Option (String × Int)
  | [] => none
  | p :: rest => some (pyMaxFold p rest)

/-- The move-to-front step of `get_available_versions` (main.py lines
128-132): find the first index whose identifier is the most-recent
last-played id and do `items.insert(0, items.pop(idx))`; leave the list
unchanged when the dict is empty or the id is absent. -/
def moveLastPlayedToFront (last_played : LastPlayed)
    (items : List CatalogEntry) : List CatalogEntry :=
  match pyMaxPair last_played with
  | none => items
  | some best =>
    match h : items.findIdx? (fun e => e.2 == best.1) with
    | none => items
    | some i =>
      items.get ⟨i, (List.findIdx?_eq_some_iff_findIdx_eq.mp h).1⟩ :: items.eraseIdx i

/-- `items = local_items + remote_items` (main.py line 125): local entries
first (in scan order), then the deduplicated remote entries (in fetch
order), with `seen` starting as the set of local identifiers. -/
def mergedItems (localIds : List String) (remote : List RemoteVersion) : List CatalogEntry :=
  localItems localIds ++ remoteItems localIds remote

/-- `get_available_versions` (main.py lines 109-134), with the scanned
local dict, the fetched remote list and the loaded last-played mapping as
inputs: local entries first, then deduplicated remote entries, then the
move-to-front step. -/
def get_available_versions (localIds : List String)
    (remote : List RemoteVersion) (last_played : LastPlayed) : List CatalogEntry :=
  moveLastPlayedToFront last_played (mergedItems localIds remote)

/-- Outcome of the dropdown rebuild `AsphaltLauncher._populate_dropdown`
(main.py lines 497-539): the entries added to the dropdown, the network
flag `self._online` afterwards, and whether the retry button is shown. -/
structure DropdownResult where
  items : List CatalogEntry
  online : Bool
  retryShown : Bool
deriving DecidableEq, Repr

/-- `AsphaltLauncher._populate_dropdown` (main.py lines 497-539), with the
remote fetch outcome passed in as an `Except`: local entries are added
first; when `self._online` the remote fetch is attempted and its entries
appended on success, while any exception is caught, flips `_online` to
false and shows the retry button; when already offline the fetch is
skipped and the retry button shown.  Selection-index bookkeeping does not
change the item list and is omitted. -/
def populate_dropdown (onlineBefore : Bool) (localIds : List String)
    (fetch : Except Unit (List RemoteVersion)) : DropdownResult :=
  let localPart := localItems localIds
  if onlineBefore then
    match fetch with
    | .ok remote => ⟨localPart ++ remoteItems localIds remote, true, false⟩
    | .error _ => ⟨localPart, false, true⟩
  else
    ⟨localPart, false, true⟩

/-! ### Launch invocation -/

/-- The Python UUID namespace constant `uuid.NAMESPACE_OID`. -/
def NAMESPACE_OID : String := "6ba7b812-9dad-11d1-80b4-00c04fd430c8"

/-- The options dict built by `launch_minecraft` (main.py lines 138-144).
`uuid.uuid3` is the deterministic name-based (MD5) UUID of the standard
library, taken here as an explicit function argument `uuid3` of the
namespace and the name. -/
structure LaunchOptions where
  username : String
  uuid : String
  token : String
  executablePath : Option String
  jvmArguments : Option (List String)
deriving DecidableEq, Repr

/-- Lines 138-144 of main.py: derive the offline UUID from the username,
fill the fixed token, and add `executablePath` / `jvmArguments` only when
the arguments are truthy (Python treats `None`, `""` and `[]` as false). -/
def build_options (uuid3 : String → String → String) (username : String)
    (java_executable : Option String) (jvm_args : Option (List String)) : LaunchOptions :=
  { username := username
    uuid := uuid3 NAMESPACE_OID username
    token := "00000000000000000000000000000000"
    executablePath := match java_executable with
      | some s => if s = "" then none else some s
      | none => none
    jvmArguments := match jvm_args with
      | some l => if l = [] then none else some l
      | none => none }

/-- Outcomes of the three external steps `launch_minecraft` performs
before it records the launch: `install_minecraft_version`,
`get_minecraft_command`, and `subprocess.Popen`.  `now` is the timestamp
`datetime.now().timestamp()` reads when `save_last_played` runs. -/
structure LaunchEnv where
  installResult : Except String Unit
  commandResult : Except String (List String)
  spawnResult : Except String Nat
  now : Int
deriving Repr

/-- `launch_minecraft` (main.py lines 137-157) up to the last-played
write: install, build the command, spawn; any exception in those steps
propagates to the caller with the last-played file untouched; only after
`Popen` returns does `save_last_played(version)` rewrite the file. -/
def launch_minecraft (env : LaunchEnv) (file : LPFile)
    (version : String) : Except String Unit × LPFile :=
  match env.installResult with
  | .error e => (.error e, file)
  | .ok _ =>
    match env.commandResult with
    | .error e => (.error e, file)
    | .ok _ =>
      match env.spawnResult with
      | .error e => (.error e, file)
      | .ok _ => (.ok (), save_last_played file version env.now)

/-! ### Helper lemmas -/

theorem localItems_map_snd (l : List String) : (localItems l).map Prod.snd = l := by
  induction l with
  | nil => rfl
  | cons x xs ih => simpa [localItems] using ih

theorem remoteItems_mem {seen : List String} {remote : List RemoteVersion}
    {e : CatalogEntry} (he : e ∈ remoteItems seen remote) :
    e.2 ∉ seen ∧ ∃ v ∈ remote, v.id = e.2 ∧ e.1 = typeLabels v.type ++ " - " ++ v.id := by
  induction remote generalizing seen with
  | nil => cases he
  | cons v rest ih =>
    by_cases hv : v.id ∈ seen
    · rw [remoteItems, if_pos hv] at he
      obtain ⟨h1, v2, hv2, hid, hlab⟩ := ih he
      exact ⟨h1, v2, List.mem_cons_of_mem _ hv2, hid, hlab⟩
    · rw [remoteItems, if_neg hv] at he
      rcases List.mem_cons.mp he with rfl | he2
      · exact ⟨hv, v, List.mem_cons_self _ _, rfl, rfl⟩
      · obtain ⟨h1, v2, hv2, hid, hlab⟩ := ih he2
        exact ⟨fun hs => h1 (List.mem_cons_of_mem _ hs),
               v2, List.mem_cons_of_mem _ hv2, hid, hlab⟩

theorem remoteItems_snd_nodup (seen : List String) (remote : List RemoteVersion) :
    ((remoteItems seen remote).map Prod.snd).Nodup := by
  induction remote generalizing seen with
  | nil => simp [remoteItems]
  | cons v rest ih =>
    by_cases hv : v.id ∈ seen
    · rw [remoteItems, if_pos hv]; exact ih seen
    · rw [remoteItems, if_neg hv, List.map_cons, List.nodup_cons]
      refine ⟨fun hmem => ?_, ih _⟩
      obtain ⟨e, he, hsnd⟩ := List.mem_map.mp hmem
      exact (remoteItems_mem he).1 (hsnd ▸ List.mem_cons_self _ _)

theorem mergedItems_map_snd (localIds : List String) (remote : List RemoteVersion) :
    (mergedItems localIds remote).map Prod.snd =
      localIds ++ (remoteItems localIds remote).map Prod.snd := by
  rw [mergedItems, List.map_append, localItems_map_snd]

theorem mergedItems_snd_nodup {localIds : List String} (remote : List RemoteVersion)
    (hl : localIds.Nodup) :
    ((mergedItems localIds remote).map Prod.snd).Nodup := by
  rw [mergedItems_map_snd, List.nodup_append]
  refine ⟨hl, remoteItems_snd_nodup _ _, fun a ha hb => ?_⟩
  obtain ⟨e, he, rfl⟩ := List.mem_map.mp hb
  exact (remoteItems_mem he).1 ha

theorem pyMaxFold_mem (best : String × Int) (l : LastPlayed) :
    pyMaxFold best l = best ∨ pyMaxFold best l ∈ l := by
  induction l generalizing best with
  | nil => exact Or.inl rfl
  | cons q rest ih =>
    rw [pyMaxFold]
    rcases ih (if best.2 < q.2 then q else best) with h | h
    · rw [h]
      by_cases hlt : best.2 < q.2
      · rw [if_pos hlt]; exact Or.inr (List.mem_cons_self _ _)
      · rw [if_neg hlt]; exact Or.inl rfl
    · exact Or.inr (List.mem_cons_of_mem _ h)

theorem pyMaxFold_le (best : String × Int) (l : LastPlayed) :
    best.2 ≤ (pyMaxFold best l).2 ∧ ∀ q ∈ l, q.2 ≤ (pyMaxFold best l).2 := by
  induction l generalizing best with
  | nil => exact ⟨le_refl _, by simp⟩
  | cons q rest ih =>
    obtain ⟨h1, h2⟩ := ih (if best.2 < q.2 then q else best)
    rw [pyMaxFold]
    have hbase : best.2 ≤ (if best.2 < q.2 then q else best).2 := by
      by_cases hlt : best.2 < q.2
      · rw [if_pos hlt]; exact le_of_lt hlt
      · rw [if_neg hlt]
    have hq : q.2 ≤ (if best.2 < q.2 then q else best).2 := by
      by_cases hlt : best.2 < q.2
      · rw [if_pos hlt]
      · rw [if_neg hlt]; exact le_of_not_lt hlt
    refine ⟨le_trans hbase h1, fun r hr => ?_⟩
    rcases List.mem_cons.mp hr with rfl | hr2
    · exact le_trans hq h1
    · exact h2 r hr2

theorem pyMaxPair_spec {lp : LastPlayed} {b : String × Int}
    (h : pyMaxPair lp = some b) : b ∈ lp ∧ ∀ q ∈ lp, q.2 ≤ b.2 := by
  cases lp with
  | nil => cases h
  | cons p rest =>
    rw [pyMaxPair, Option.some.injEq] at h
    subst h
    constructor
    · rcases pyMaxFold_mem p rest with h | h
      · rw [h]; exact List.mem_cons_self _ _
      · exact List.mem_cons_of_mem _ h
    · intro q hq
      rcases List.mem_cons.mp hq with rfl | hq2
      · exact (pyMaxFold_le q rest).1
      · exact (pyMaxFold_le p rest).2 q hq2

theorem perm_get_cons_eraseIdx (l : List CatalogEntry) (i : Nat) (h : i < l.length) :
    (l.get ⟨i, h⟩ :: l.eraseIdx i).Perm l := by
  conv_rhs => rw [← List.take_append_drop i l, List.drop_eq_getElem_cons h]
  rw [List.eraseIdx_eq_take_drop_succ, List.get_eq_getElem]
  exact List.perm_middle.symm

theorem moveLastPlayedToFront_perm (lp : LastPlayed) (items : List CatalogEntry) :
    (moveLastPlayedToFront lp items).Perm items := by
  unfold moveLastPlayedToFront
  split
  · exact List.Perm.refl _
  · split
    · exact List.Perm.refl _
    · exact perm_get_cons_eraseIdx _ _ _

theorem countP_beq_eq_one_of_nodup {l : List String} (hl : l.Nodup) {a : String}
    (ha : a ∈ l) : l.countP (fun s => s == a) = 1 := by
  induction l with
  | nil => cases ha
  | cons x xs ih =>
    rw [List.countP_cons]
    rcases List.mem_cons.mp ha with rfl | ha2
    · have hx : a ∉ xs := (List.nodup_cons.mp hl).1
      have hz : xs.countP (fun s => s == a) = 0 := by
        refine List.countP_eq_zero.mpr fun s hs hbeq => ?_
        exact hx ((eq_of_beq hbeq) ▸ hs)
      simp [hz]
    · have hne : (x == a) = false := by
        refine beq_eq_false_iff_ne.mpr fun hxa => ?_
        exact (List.nodup_cons.mp hl).1 (hxa ▸ ha2)
      rw [ih (List.nodup_cons.mp hl).2 ha2, hne]
      simp

theorem dictGet_replace_same (m : LastPlayed) (k : String) (v : Int)
    (h : m.any (fun p => p.1 == k) = true) :
    dictGet (m.map (fun p => if p.1 == k then (k, v) else p)) k = some v := by
  induction m with
  | nil => simp at h
  | cons p rest ih =>
    rw [List.map_cons, dictGet]
    by_cases hp : (p.1 == k) = true
    · rw [if_pos hp, List.find?_cons_of_pos _ (by simp)]
      rfl
    · rw [if_neg hp, List.find?_cons_of_neg _ (by simpa using hp)]
      have hrest : rest.any (fun p => p.1 == k) = true := by
        rcases List.any_eq_true.mp h with ⟨q, hq, hbq⟩
        rcases List.mem_cons.mp hq with rfl | hq2
        · exact absurd hbq hp
        · exact List.any_eq_true.mpr ⟨q, hq2, hbq⟩
      exact ih hrest

theorem dictGet_dictSet_same (m : LastPlayed) (k : String) (v : Int) :
    dictGet (dictSet m k v) k = some v := by
  rw [dictSet]
  by_cases h : m.any (fun p => p.1 == k) = true
  · rw [if_pos h]
    exact dictGet_replace_same m k v h
  · rw [if_neg h, dictGet, List.find?_append]
    have hnone : m.find? (fun p => p.1 == k) = none := by
      refine List.find?_eq_none.mpr fun q hq => ?_
      intro hbq
      exact h (List.any_eq_true.mpr ⟨q, hq, hbq⟩)
    rw [hnone]
    simp

theorem dictGet_dictSet_other (m : LastPlayed) (k k2 : String) (v : Int)
    (hne : k2 ≠ k) : dictGet (dictSet m k v) k2 = dictGet m k2 := by
  rw [dictSet]
  by_cases h : m.any (fun p => p.1 == k) = true
  · rw [if_pos h]
    clear h
    induction m with
    | nil => rfl
    | cons p rest ih =>
      rw [List.map_cons, dictGet, dictGet]
      by_cases hp : (p.1 == k) = true
      · rw [if_pos hp]
        have hk2 : (k == k2) = false :=
          beq_eq_false_iff_ne.mpr fun hkk => hne hkk.symm
        have hp2 : (p.1 == k2) = false := by
          rw [eq_of_beq hp]; exact hk2
        rw [List.find?_cons_of_neg _ (by simp [hk2]),
            List.find?_cons_of_neg _ (by simp [hp2])]
        exact ih
      · rw [if_neg hp]
        by_cases hq : (p.1 == k2) = true
        · rw [List.find?_cons_of_pos _ (by simpa using hq),
              List.find?_cons_of_pos _ (by simpa using hq)]
        · rw [List.find?_cons_of_neg _ (by simpa using hq),
              List.find?_cons_of_neg _ (by simpa using hq)]
          exact ih
  · rw [if_neg h, dictGet, List.find?_append]
    have hlast : List.find? (fun p => p.1 == k2) [(k, v)] = none := by
      refine List.find?_eq_none.mpr fun q hq => ?_
      rcases List.mem_cons.mp hq with rfl | hq2
      · simpa using fun hkk => hne (eq_of_beq hkk).symm
      · cases hq2
    rw [hlast, Option.or_none]
    rfl

theorem dictSet_keys_nodup (m : LastPlayed) (k : String) (v : Int)
    (hm : (m.map Prod.fst).Nodup) : ((dictSet m k v).map Prod.fst).Nodup := by
  rw [dictSet]
  by_cases h : m.any (fun p => p.1 == k) = true
  · rw [if_pos h, List.map_map]
    have : m.map (Prod.fst ∘ fun p => if p.1 == k then (k, v) else p) = m.map Prod.fst := by
      refine List.map_congr_left fun p _ => ?_
      by_cases hp : (p.1 == k) = true
      · simp only [Function.comp_apply, if_pos hp]
        exact (eq_of_beq hp).symm
      · simp only [Function.comp_apply, if_neg hp]
    rw [this]
    exact hm
  · rw [if_neg h, List.map_append, List.nodup_append]
    refine ⟨hm, List.nodup_singleton _, fun a ha hb => ?_⟩
    obtain ⟨p, hp, rfl⟩ := List.mem_map.mp ha
    have : p.1 = k := by simpa using hb
    exact h (List.any_eq_true.mpr ⟨p, hp, by simp [this]⟩)

theorem jsonStrList_roundtrip (args : List String) :
    jsonStrList (args.map Json.str) = some args := by
  induction args with
  | nil => rfl
  | cons a as ih => rw [List.map_cons, jsonStrList, ih]; rfl

/-! ### Claim theorems -/

/-- C1: for every local version set and remote fetch outcome, if the remote
fetch raises then catalog construction (the dropdown rebuild) does not
propagate the exception: the resulting catalog is exactly the local
entries in scan order with the local origin label, the online flag is
cleared, and the retry button is shown. -/
theorem C1_offline_fallback (onlineBefore : Bool) (localIds : List String) :
    (populate_dropdown onlineBefore localIds (Except.error ())).items
        = localIds.map (fun v => ("🔧 " ++ v, v)) ∧
    (populate_dropdown onlineBefore localIds (Except.error ())).online = false ∧
    (populate_dropdown onlineBefore localIds (Except.error ())).retryShown = true := by
  cases onlineBefore <;> exact ⟨rfl, rfl, rfl⟩

/-- C2 counterexample: on a well-formed JSON object that is missing the
`jvm_args` key, `load_config` returns the object unchanged — the missing
key is NOT filled from the defaults (the defaults do carry a `jvm_args`
field), refuting the claim's merge clause. -/
theorem C2_counterexample :
    load_config (.content (.obj [("username", .str "alice")]))
        = .obj [("username", .str "alice")] ∧
    jsonField "jvm_args"
        (load_config (.content (.obj [("username", .str "alice")]))) = none ∧
    jsonField "jvm_args" defaultConfig
        = some (.arr [.str "-Xms2G", .str "-Xmx4G"]) := by
  refine ⟨rfl, rfl, rfl⟩

/-- C2 (amended): `load_config` never raises; a missing, unreadable or
malformed file yields exactly the documented defaults (empty username, the
two default memory flags, null Java path); a file that parses is returned
as-is, so an object missing keys is returned with those keys still
missing (callers fill defaults at each lookup, not the loader). -/
theorem C2_load_config_behavior :
    load_config .absent = defaultConfig ∧
    load_config .malformed = defaultConfig ∧
    (∀ j : Json, load_config (.content j) = j) ∧
    defaultConfig = .obj [("username", .str ""),
        ("jvm_args", .arr [.str "-Xms2G", .str "-Xmx4G"]),
        ("java_path", .null)] :=
  ⟨rfl, rfl, fun _ => rfl, rfl⟩

/-- C3: identifiers are unique across the merged catalog, and an
identifier present both locally and remotely appears exactly once, as the
local-labeled entry (the remote duplicate is dropped). -/
theorem C3_local_precedence (localIds : List String) (remote : List RemoteVersion)
    (lp : LastPlayed) (vid : String) (hl : localIds.Nodup)
    (hvl : vid ∈ localIds) (hvr : vid ∈ remote.map RemoteVersion.id) :
    ((get_available_versions localIds remote lp).map Prod.snd).Nodup ∧
    ("🔧 " ++ vid, vid) ∈ get_available_versions localIds remote lp ∧
    (get_available_versions localIds remote lp).countP (fun e => e.2 == vid) = 1 := by
  unfold get_available_versions
  have hperm := moveLastPlayedToFront_perm lp (mergedItems localIds remote)
  refine ⟨?_, ?_, ?_⟩
  · exact (hperm.map Prod.snd).nodup_iff.mpr (mergedItems_snd_nodup remote hl)
  · refine hperm.mem_iff.mpr ?_
    unfold mergedItems localItems
    exact List.mem_append_left _ (List.mem_map.mpr ⟨vid, hvl, rfl⟩)
  · rw [hperm.countP_eq]
    have h1 : (mergedItems localIds remote).countP (fun e => e.2 == vid)
        = ((mergedItems localIds remote).map Prod.snd).countP (fun s => s == vid) := by
      rw [List.countP_map]; rfl
    rw [h1, mergedItems_map_snd, List.countP_append]
    have h2 : localIds.countP (fun s => s == vid) = 1 :=
      countP_beq_eq_one_of_nodup hl hvl
    have h3 : ((remoteItems localIds remote).map Prod.snd).countP
        (fun s => s == vid) = 0 := by
      refine List.countP_eq_zero.mpr fun s hs hbeq => ?_
      obtain ⟨e, he, rfl⟩ := List.mem_map.mp hs
      refine (remoteItems_mem he).1 ?_
      rw [eq_of_beq hbeq]
      exact hvl
    rw [h2, h3]

/-- C3 witness: with local `{"1.20.1"}` and a remote list also carrying
`1.20.1`, the catalog has unique identifiers and exactly one `1.20.1`
entry, labeled local. -/
theorem C3_witness :
    (["1.20.1"] : List String).Nodup ∧
    ("1.20.1" ∈ (["1.20.1"] : List String)) ∧
    ("1.20.1" ∈ ([⟨"1.20.1", "release"⟩, ⟨"1.21", "release"⟩] :
        List RemoteVersion).map RemoteVersion.id) ∧
    (((get_available_versions ["1.20.1"]
        [⟨"1.20.1", "release"⟩, ⟨"1.21", "release"⟩] []).map Prod.snd).Nodup ∧
     ("🔧 " ++ "1.20.1", "1.20.1") ∈ get_available_versions ["1.20.1"]
        [⟨"1.20.1", "release"⟩, ⟨"1.21", "release"⟩] [] ∧
     (get_available_versions ["1.20.1"]
        [⟨"1.20.1", "release"⟩, ⟨"1.21", "release"⟩] []).countP
          (fun e => e.2 == "1.20.1") = 1) :=
  ⟨by decide, by decide, by decide,
   C3_local_precedence ["1.20.1"] [⟨"1.20.1", "release"⟩, ⟨"1.21", "release"⟩]
     [] "1.20.1" (by decide) (by decide) (by decide)⟩

/-- C4: when the last-played record is non-empty, the identifier the code
selects (`max` by timestamp, earliest key on ties) carries a maximal
recorded timestamp; if it occurs in the merged list, the catalog starts
with its (first) entry followed by the remaining entries in their prior
relative order (`items.insert(0, items.pop(idx))`); if it does not occur,
the ordering is unchanged. -/
theorem C4_last_played_front (localIds : List String) (remote : List RemoteVersion)
    (lp : LastPlayed) (b : String × Int) (hmax : pyMaxPair lp = some b) :
    b ∈ lp ∧ (∀ q ∈ lp, q.2 ≤ b.2) ∧
    (b.1 ∉ (mergedItems localIds remote).map Prod.snd →
        get_available_versions localIds remote lp = mergedItems localIds remote) ∧
    (b.1 ∈ (mergedItems localIds remote).map Prod.snd →
        ∃ i, ∃ hi : i < (mergedItems localIds remote).length,
          (mergedItems localIds remote).findIdx? (fun e => e.2 == b.1) = some i ∧
          ((mergedItems localIds remote).get ⟨i, hi⟩).2 = b.1 ∧
          get_available_versions localIds remote lp =
            (mergedItems localIds remote).get ⟨i, hi⟩ ::
              (mergedItems localIds remote).eraseIdx i) := by
  obtain ⟨hmem, hle⟩ := pyMaxPair_spec hmax
  refine ⟨hmem, hle, ?_, ?_⟩
  · intro hnot
    have hnone : (mergedItems localIds remote).findIdx? (fun e => e.2 == b.1) = none := by
      refine List.findIdx?_eq_none_iff.mpr fun e he => ?_
      refine beq_eq_false_iff_ne.mpr fun hsnd => ?_
      exact hnot (List.mem_map.mpr ⟨e, he, hsnd⟩)
    simp only [get_available_versions, moveLastPlayedToFront, hmax]
    split
    · rfl
    · rename_i i heq
      rw [hnone] at heq
      cases heq
  · intro hmem2
    have hsome : ((mergedItems localIds remote).findIdx? (fun e => e.2 == b.1)).isSome := by
      rw [List.findIdx?_isSome]
      obtain ⟨e, he, hesnd⟩ := List.mem_map.mp hmem2
      exact List.any_eq_true.mpr ⟨e, he, by simp [hesnd]⟩
    obtain ⟨i, hfound⟩ := Option.isSome_iff_exists.mp hsome
    obtain ⟨hlt, hp, hprior⟩ := List.findIdx?_eq_some_iff_getElem.mp hfound
    refine ⟨i, hlt, hfound, by simpa using eq_of_beq hp, ?_⟩
    simp only [get_available_versions, moveLastPlayedToFront, hmax]
    split
    · rename_i heq
      rw [hfound] at heq
      cases heq
    · rename_i i2 heq
      rw [hfound] at heq
      injection heq with h12
      subst h12
      rfl

/-- C4 witness: last-played `{"1.21": 100}` with local `{"1.20.1"}` and a
two-entry remote list puts the `1.21` entry first. -/
theorem C4_witness :
    pyMaxPair [("1.21", (100 : Int))] = some ("1.21", (100 : Int)) ∧
    (("1.21", (100 : Int)) ∈ [("1.21", (100 : Int))] ∧
     (∀ q ∈ [("1.21", (100 : Int))], q.2 ≤ ("1.21", (100 : Int)).2) ∧
     (("1.21", (100 : Int)).1 ∉ (mergedItems ["1.20.1"]
          [⟨"1.20.1", "release"⟩, ⟨"1.21", "release"⟩]).map Prod.snd →
        get_available_versions ["1.20.1"]
            [⟨"1.20.1", "release"⟩, ⟨"1.21", "release"⟩] [("1.21", (100 : Int))]
          = mergedItems ["1.20.1"] [⟨"1.20.1", "release"⟩, ⟨"1.21", "release"⟩]) ∧
     (("1.21", (100 : Int)).1 ∈ (mergedItems ["1.20.1"]
          [⟨"1.20.1", "release"⟩, ⟨"1.21", "release"⟩]).map Prod.snd →
        ∃ i, ∃ hi : i < (mergedItems ["1.20.1"]
            [⟨"1.20.1", "release"⟩, ⟨"1.21", "release"⟩]).length,
          (mergedItems ["1.20.1"]
              [⟨"1.20.1", "release"⟩, ⟨"1.21", "release"⟩]).findIdx?
            (fun e => e.2 == ("1.21", (100 : Int)).1) = some i ∧
          ((mergedItems ["1.20.1"]
              [⟨"1.20.1", "release"⟩, ⟨"1.21", "release"⟩]).get ⟨i, hi⟩).2
            = ("1.21", (100 : Int)).1 ∧
          get_available_versions ["1.20.1"]
              [⟨"1.20.1", "release"⟩, ⟨"1.21", "release"⟩] [("1.21", (100 : Int))]
            = (mergedItems ["1.20.1"]
                [⟨"1.20.1", "release"⟩, ⟨"1.21", "release"⟩]).get ⟨i, hi⟩ ::
              (mergedItems ["1.20.1"]
                [⟨"1.20.1", "release"⟩, ⟨"1.21", "release"⟩]).eraseIdx i)) :=
  ⟨by decide,
   C4_last_played_front ["1.20.1"] [⟨"1.20.1", "release"⟩, ⟨"1.21", "release"⟩]
     [("1.21", (100 : Int))] ("1.21", (100 : Int)) (by decide)⟩

/-- C5: `save_config` followed by `load_config` round-trips the username,
the JVM argument list (order preserved) and the Java path exactly. -/
theorem C5_roundtrip (u : String) (args : List String) (p : Option String) :
    jsonField "username" (load_config (save_config u args p)) = some (.str u) ∧
    (jsonField "jvm_args" (load_config (save_config u args p))).bind jsonToStrList
      = some args ∧
    (jsonField "java_path" (load_config (save_config u args p))).bind jsonToJavaPath
      = some p := by
  refine ⟨rfl, ?_, ?_⟩
  · show jsonToStrList (.arr (args.map .str)) = some args
    rw [jsonToStrList]
    exact jsonStrList_roundtrip args
  · show jsonToJavaPath (javaPathJson p) = some p
    cases p <;> rfl

/-- C6: if install, command construction, or the process spawn raises,
`launch_minecraft` propagates the error and the last-played file is
exactly what it was before the call. -/
theorem C6_no_write_on_failure (env : LaunchEnv) (file : LPFile) (version : String)
    (h : ∃ e, (launch_minecraft env file version).1 = Except.error e) :
    (launch_minecraft env file version).2 = file := by
  obtain ⟨e, h⟩ := h
  rw [launch_minecraft] at h ⊢
  rcases hi : env.installResult with e1 | u1
  · rfl
  · rcases hc : env.commandResult with e2 | c
    · rfl
    · rcases hs : env.spawnResult with e3 | n
      · rfl
      · rw [hi, hc, hs] at h
        exact Except.noConfusion h

/-- C6 witness: an install failure leaves a concrete last-played file
untouched. -/
theorem C6_witness :
    (launch_minecraft ⟨Except.error "install failed", Except.ok [], Except.ok 0, 5⟩
        (.content [("1.20.1", 3)]) "1.21").2 = .content [("1.20.1", 3)] :=
  C6_no_write_on_failure _ _ _ ⟨"install failed", rfl⟩

/-- C7: on a well-formed existing mapping, `save_last_played` rewrites the
file with the given identifier bound to the current timestamp
(overwriting any prior entry, keys staying unique) and every other
identifier's entry unchanged. -/
theorem C7_save_overwrite_frame (m : LastPlayed) (vid : String) (now : Int)
    (hm : (m.map Prod.fst).Nodup) :
    save_last_played (.content m) vid now = .content (dictSet m vid now) ∧
    dictGet (dictSet m vid now) vid = some now ∧
    (∀ k, k ≠ vid → dictGet (dictSet m vid now) k = dictGet m k) ∧
    ((dictSet m vid now).map Prod.fst).Nodup :=
  ⟨rfl, dictGet_dictSet_same m vid now,
   fun k hk => dictGet_dictSet_other m vid k now hk,
   dictSet_keys_nodup m vid now hm⟩

/-- C7 witness: overwriting `1.20.1` in a two-entry mapping keeps `1.16`
untouched and keys unique. -/
theorem C7_witness :
    save_last_played (.content [("1.20.1", 3), ("1.16", 2)]) "1.20.1" 10
        = .content (dictSet [("1.20.1", 3), ("1.16", 2)] "1.20.1" 10) ∧
    dictGet (dictSet [("1.20.1", 3), ("1.16", 2)] "1.20.1" 10) "1.20.1" = some 10 ∧
    (∀ k, k ≠ "1.20.1" →
        dictGet (dictSet [("1.20.1", 3), ("1.16", 2)] "1.20.1" 10) k
          = dictGet [("1.20.1", 3), ("1.16", 2)] k) ∧
    ((dictSet [("1.20.1", 3), ("1.16", 2)] "1.20.1" 10).map Prod.fst).Nodup :=
  C7_save_overwrite_frame [("1.20.1", 3), ("1.16", 2)] "1.20.1" 10 (by decide)

/-- C8: every remote entry that survives deduplication is labeled
`<TypeName> - <identifier>` for the remote record it came from, with the
type mapping release/snapshot/old_beta/old_alpha → Release/Snapshot/Beta/
Alpha and any other type kept verbatim; local entries are labeled with
the origin marker followed by the raw identifier. -/
theorem C8_entry_labels :
    (∀ (seen : List String) (remote : List RemoteVersion) (e : CatalogEntry),
        e ∈ remoteItems seen remote →
          ∃ v ∈ remote, v.id = e.2 ∧ e.1 = typeLabels v.type ++ " - " ++ v.id) ∧
    typeLabels "release" = "Release" ∧
    typeLabels "snapshot" = "Snapshot" ∧
    typeLabels "old_beta" = "Beta" ∧
    typeLabels "old_alpha" = "Alpha" ∧
    (∀ t : String, t ≠ "release" → t ≠ "snapshot" → t ≠ "old_beta" →
        t ≠ "old_alpha" → typeLabels t = t) ∧
    (∀ localIds : List String,
        localItems localIds = localIds.map (fun v => ("🔧 " ++ v, v))) := by
  refine ⟨fun seen remote e he => (remoteItems_mem he).2, rfl, rfl, rfl, rfl,
    fun t h1 h2 h3 h4 => ?_, fun localIds => rfl⟩
  rw [typeLabels, if_neg h1, if_neg h2, if_neg h3, if_neg h4]

/-- C8 witness: the surviving remote entry `1.21` of type `release` is
labeled `Release - 1.21`. -/
theorem C8_witness :
    ("Release - 1.21", "1.21") ∈ remoteItems ["1.20.1"]
        [⟨"1.20.1", "release"⟩, ⟨"1.21", "release"⟩] ∧
    (∃ v ∈ ([⟨"1.20.1", "release"⟩, ⟨"1.21", "release"⟩] : List RemoteVersion),
        v.id = ("Release - 1.21", "1.21").2 ∧
        ("Release - 1.21", "1.21").1 = typeLabels v.type ++ " - " ++ v.id) :=
  ⟨by decide,
   C8_entry_labels.1 ["1.20.1"] [⟨"1.20.1", "release"⟩, ⟨"1.21", "release"⟩]
     ("Release - 1.21", "1.21") (by decide)⟩

/-- C9: the offline pseudo-identity is `uuid3(NAMESPACE_OID, username)`, a
function of the username text alone: with the same (deterministic)
library function, two calls with the same username but any other inputs
produce the same uuid. -/
theorem C9_uuid_deterministic (uuid3 : String → String → String) (u : String)
    (j1 j2 : Option String) (a1 a2 : Option (List String)) :
    (build_options uuid3 u j1 a1).uuid = (build_options uuid3 u j2 a2).uuid ∧
    (build_options uuid3 u j1 a1).uuid = uuid3 NAMESPACE_OID u :=
  ⟨rfl, rfl⟩

/-- C10: with the last-played file missing, unreadable or malformed,
`save_last_played` rewrites it as the single-entry mapping for the new
identifier — all prior history is silently discarded. -/
theorem C10_history_discarded (vid : String) (now : Int) :
    save_last_played .absent vid now = .content [(vid, now)] ∧
    save_last_played .malformed vid now = .content [(vid, now)] := by
  constructor <;> simp [save_last_played, load_last_played, dictSet]

end Asphalt
